import Mathlib

/-!
Verification of `ordenar_xml.py` (repository Jeshuah71/parsing1).

The program parses an XML export, strips namespace qualifiers from tags,
redacts password-named and IP-bearing property fields per record, promotes
`<property name="title">` fields to `<title>` nodes, sorts the records by a
selectable key (id / title / creationDate), reassembles the document, and
emits an indented XML file plus an HTML report.

This file gives a shallow embedding of the program.  XML element trees are
modelled by the mutual inductive `Elem`/`ElemList` below, mirroring
`xml.etree.ElementTree.Element`: a tag, an ordered attribute dictionary
(keys unique, insertion order), an optional text, a list of children, and
an optional tail.  Python strings are modelled as `String`, and the string
algorithms (regex search, escaping, lowercasing, stripping) are implemented
over `List Char`; they agree with CPython on ASCII data, and all concrete
inputs used in theorems below are ASCII.

Python version note: `promote_title` tests an `Element` with `if not prop:`;
under CPython ≤ 3.13 an element with no child elements is falsy (the
documented, deprecated `Element.__bool__`).  That semantics is embedded here.
-/

/-! ### The element tree -/

mutual
inductive Elem where
  | mk (tag : String) (attrib : List (String × String)) (text : Option String)
       (children : ElemList) (tail : Option String)
inductive ElemList where
  | nil
  | cons (head : Elem) (tail : ElemList)
end

def Elem.tag : Elem → String
  | .mk t _ _ _ _ => t

def Elem.attrib : Elem → List (String × String)
  | .mk _ a _ _ _ => a

def Elem.text : Elem → Option String
  | .mk _ _ x _ _ => x

def Elem.children : Elem → ElemList
  | .mk _ _ _ cs _ => cs

def Elem.tail : Elem → Option String
  | .mk _ _ _ _ tl => tl

def ElemList.toList : ElemList → List Elem
  | .nil => []
  | .cons c cs => c :: cs.toList

def ElemList.ofList : List Elem → ElemList
  | [] => .nil
  | c :: cs => .cons c (ElemList.ofList cs)

def ElemList.length : ElemList → Nat
  | .nil => 0
  | .cons _ cs => cs.length + 1

/-- `elem.get(key)`: lookup in the attribute dictionary. -/
def Elem.get (e : Elem) (key : String) : Option String :=
  List.lookup key e.attrib

mutual
def beqE : Elem → Elem → Bool
  | .mk t a x cs tl, .mk t' a' x' cs' tl' =>
    t == t' && a == a' && x == x' && beqL cs cs' && tl == tl'
def beqL : ElemList → ElemList → Bool
  | .nil, .nil => true
  | .cons c cs, .cons c' cs' => beqE c c' && beqL cs cs'
  | _, _ => false
end

mutual
theorem beqE_iff : ∀ (a b : Elem), beqE a b = true ↔ a = b
  | .mk t x1 x2 cs x4, .mk t' y1 y2 cs' y4 => by
    simp only [beqE, Bool.and_eq_true, beq_iff_eq, beqL_iff cs cs', Elem.mk.injEq]
    tauto
theorem beqL_iff : ∀ (a b : ElemList), beqL a b = true ↔ a = b
  | .nil, .nil => by simp [beqL]
  | .nil, .cons _ _ => by simp [beqL]
  | .cons _ _, .nil => by simp [beqL]
  | .cons c cs, .cons c' cs' => by
    simp only [beqL, Bool.and_eq_true, beqE_iff c c', beqL_iff cs cs', ElemList.cons.injEq]
end

instance : DecidableEq Elem := fun a b => decidable_of_iff (beqE a b = true) (beqE_iff a b)
instance : DecidableEq ElemList := fun a b => decidable_of_iff (beqL a b = true) (beqL_iff a b)

/- All strict descendants of the element, in document (preorder) order.
Models the node sequence produced by `elem.iter()` minus the element itself,
which is also the sequence scanned by `findall(".//...")` paths. -/
mutual
def descE : Elem → List Elem
  | .mk _ _ _ cs _ => descL cs
def descL : ElemList → List Elem
  | .nil => []
  | .cons c cs => c :: (descE c ++ descL cs)
end

/-- `elem.iter()`: the element itself followed by its descendants in preorder. -/
def iterE (e : Elem) : List Elem := e :: descE e

/-! ### Basic Python string helpers (ASCII fragment) -/

/-- `str.lower` on ASCII letters. -/
def pyLowerChar (c : Char) : Char :=
  if 'A' ≤ c && c ≤ 'Z' then Char.ofNat (c.toNat + 32) else c

def pyLower (l : List Char) : List Char := l.map pyLowerChar

def pyLowerS (s : String) : String := .mk (pyLower s.toList)

/-- Characters stripped by Python `str.strip()` with no argument. -/
def pySpace (c : Char) : Bool :=
  c = ' ' || c = '\t' || c = '\n' || c = '\x0d' || c = '\x0b' || c = '\x0c'

def pyStrip (l : List Char) : List Char :=
  ((l.dropWhile pySpace).reverse.dropWhile pySpace).reverse

def pyStripS (s : String) : String := .mk (pyStrip s.toList)

/-- Contiguous-sublist (substring) test: Python `pat in s`. -/
def containsSub (pat : List Char) : List Char → Bool
  | [] => pat.isEmpty
  | c :: rest => pat.isPrefixOf (c :: rest) || containsSub pat rest

/-! ### `strip_ns`: namespace normalization (source lines 42-46)

```python
def strip_ns(elem):
    for e in elem.iter():
        if isinstance(e.tag, str) and '}' in e.tag:
            e.tag = e.tag.split('}', 1)[1]
    return elem
```
Every tag in the model is a string, so the `isinstance` guard is always true. -/

/-- `tag.split('}', 1)[1]` guarded by `'}' in tag`: everything after the first
closing brace, or the tag unchanged when no brace occurs. -/
def stripTag (t : String) : String :=
  if t.toList.contains '\x7d' then
    .mk ((t.toList.dropWhile (fun c => c != '\x7d')).drop 1)
  else t

mutual
def strip_nsE : Elem → Elem
  | .mk t a x cs tl => .mk (stripTag t) a x (strip_nsL cs) tl
def strip_nsL : ElemList → ElemList
  | .nil => .nil
  | .cons c cs => .cons (strip_nsE c) (strip_nsL cs)
end

/- Everything about a node except its tag: attributes, text, tail and the
number of children, listed for the whole subtree in preorder.  Two trees with
the same frame agree on all node data except tag names, and have the same
shape. -/
mutual
def frameE : Elem → List (List (String × String) × Option String × Option String × Nat)
  | .mk _ a x cs tl => (a, x, tl, cs.length) :: frameL cs
def frameL : ElemList → List (List (String × String) × Option String × Option String × Nat)
  | .nil => []
  | .cons c cs => frameE c ++ frameL cs
end

theorem strip_nsL_length : ∀ (cs : ElemList), (strip_nsL cs).length = cs.length
  | .nil => rfl
  | .cons c cs => by simp only [strip_nsL, ElemList.length, strip_nsL_length cs]

mutual
theorem strip_ns_frame_E : ∀ (e : Elem), frameE (strip_nsE e) = frameE e
  | .mk t a x cs tl => by
    simp only [strip_nsE, frameE, strip_ns_frame_L cs, strip_nsL_length cs]
theorem strip_ns_frame_L : ∀ (cs : ElemList), frameL (strip_nsL cs) = frameL cs
  | .nil => rfl
  | .cons c cs => by
    simp only [strip_nsL, frameL, strip_ns_frame_E c, strip_ns_frame_L cs]
end

/-! ### `IP_RE = re.compile(r"\b(?:\d{1,3}\.){3}\d{1,3}\b")` (source line 23)

A faithful matcher for `IP_RE.search`: four dot-separated groups of one to
three digits, between word boundaries, searched at every position of the
string.  `\d{1,3}` is greedy with backtracking, realized below by trying the
three-, two- and one-digit readings of each group.  Both boundaries reduce to
simple neighbour tests because digits are word characters. -/

/-- Python regex word character (`\w`), ASCII fragment. -/
def isWordChar (c : Char) : Bool := c.isAlphanum || c = '_'

/-- Match `\d{1,3}` at the head of `l` and hand each possible remainder to
the continuation `k` (greedy first; `||` covers the backtracking order). -/
def digit13 (l : List Char) (k : List Char → Bool) : Bool :=
  match l with
  | c1 :: rest1 =>
    if c1.isDigit then
      match rest1 with
      | c2 :: rest2 =>
        if c2.isDigit then
          match rest2 with
          | c3 :: rest3 =>
            if c3.isDigit then k rest3 || k rest2 || k rest1
            else k rest2 || k rest1
          | [] => k rest2 || k rest1
        else k rest1
      | [] => k rest1
    else false
  | [] => false

/-- Match a literal dot, then continue with `k`. -/
def dotThen (k : List Char → Bool) (l : List Char) : Bool :=
  match l with
  | c :: r => c = '.' && k r
  | [] => false

/-- The trailing `\b`: the previous character was a digit (a word character),
so the boundary holds iff the string ends or a non-word character follows. -/
def ipEndBoundary (l : List Char) : Bool :=
  match l with
  | [] => true
  | c :: _ => !isWordChar c

/-- `(?:\d{1,3}\.){3}\d{1,3}\b` anchored at the head of `l`. -/
def ipHere (l : List Char) : Bool :=
  digit13 l (dotThen (fun r1 => digit13 r1 (dotThen (fun r2 =>
    digit13 r2 (dotThen (fun r3 => digit13 r3 ipEndBoundary))))))

/-- Scan every start position.  The leading `\b` holds iff the previous
character (tracked in the first argument) is absent or not a word character;
the pattern itself then requires a digit. -/
def ipSearchAux : Option Char → List Char → Bool
  | prev, c :: rest =>
    ((match prev with | none => true | some p => !isWordChar p) && ipHere (c :: rest))
      || ipSearchAux (some c) rest
  | _, [] => false

/-- `IP_RE.search(s) is not None`. -/
def ipSearch (l : List Char) : Bool := ipSearchAux none l

example : ipSearch "10.0.0.1".toList = true := by decide
example : ipSearch "host 999.999.999.999 up".toList = true := by decide
example : ipSearch "1.2.3.4567".toList = false := by decide
example : ipSearch "a1.2.3.4".toList = false := by decide
example : ipSearch "v1.2.3".toList = false := by decide
example : ipSearch "1.2.x3.4".toList = false := by decide

/-! ### `itertext` -/

/- `''.join(p.itertext())`: the concatenation of all text and tail parts of
the subtree in document order (`itertext` yields the node text, then for each
child its own `itertext` followed by the child's tail). -/
mutual
def itertextE : Elem → List Char
  | .mk _ _ x cs _ => (match x with | some s => s.toList | none => []) ++ itertextL cs
def itertextL : ElemList → List Char
  | .nil => []
  | .cons c cs =>
    (itertextE c ++ (match c.tail with | some s => s.toList | none => [])) ++ itertextL cs
end

/-! ### `remove_sensitive` (source lines 49-59)

```python
def remove_sensitive(obj):
    for p in list(obj.findall('.//property')):
        name = (p.get('name') or '').lower()
        text_all = ''.join(p.itertext())
        if 'password' in name or IP_RE.search(text_all):
            parent = next((pr for pr in obj.iter() if p in pr), None)
            if parent:
                parent.remove(p)
    for attr in list(obj.attrib):
        if 'password' in attr.lower() or IP_RE.search(obj.attrib[attr]):
            del obj.attrib[attr]
```

The loop walks the snapshot of descendant `property` nodes in document
(preorder) order and removes each matching one from its parent.  Because
preorder lists every node before its own descendants, each node is tested
while its subtree is still in its original state; removing a matched node
detaches its whole subtree, and a matched node whose ancestor was already
removed is no longer reachable from `obj.iter()`, so its removal is a no-op.
The net effect is the top-down recursion below: drop every `property` child
whose (original) name or subtree text matches, and recurse into the kept
children.  (`remove_sensitive_runE` further below models the loop itself,
step by step, to settle the totality claim.) -/

def pwList : List Char := "password".toList

/-- The redaction test applied to each `.//property` node: tag `property`,
and `'password' in name.lower()` or `IP_RE.search(''.join(p.itertext()))`. -/
def matchedProp (e : Elem) : Bool :=
  e.tag == "property" &&
    (containsSub pwList (pyLower ((e.get "name").getD "").toList)
      || ipSearch (itertextE e))

mutual
def redactE : Elem → Elem
  | .mk t a x cs tl => .mk t a x (redactL cs) tl
def redactL : ElemList → ElemList
  | .nil => .nil
  | .cons c cs => if matchedProp c then redactL cs else .cons (redactE c) (redactL cs)
end

/-- The attribute test of the second loop. -/
def sensAttr (kv : String × String) : Bool :=
  containsSub pwList (pyLower kv.1.toList) || ipSearch kv.2.toList

def remove_sensitive : Elem → Elem
  | .mk t a x cs tl => .mk t (a.filter (fun kv => !sensAttr kv)) x (redactL cs) tl

theorem redactE_tag : ∀ e : Elem, (redactE e).tag = e.tag
  | .mk _ _ _ _ _ => rfl

theorem redactE_attrib : ∀ e : Elem, (redactE e).attrib = e.attrib
  | .mk _ _ _ _ _ => rfl

mutual
theorem redact_sound_E : ∀ (e : Elem), ∀ p ∈ descE (redactE e), p.tag = "property" →
    ∃ q ∈ descE e, q.tag = "property" ∧ p = redactE q ∧ matchedProp q = false
  | .mk t a x cs tl => by
    intro p hp htag
    exact redact_sound_L cs p hp htag
theorem redact_sound_L : ∀ (cs : ElemList), ∀ p ∈ descL (redactL cs), p.tag = "property" →
    ∃ q ∈ descL cs, q.tag = "property" ∧ p = redactE q ∧ matchedProp q = false
  | .nil => by intro p hp; simp [descL, redactL] at hp
  | .cons c cs => by
    intro p hp htag
    by_cases hm : matchedProp c = true
    · rw [redactL, if_pos hm] at hp
      obtain ⟨q, hq, h⟩ := redact_sound_L cs p hp htag
      exact ⟨q, by simp [descL, List.mem_append]; tauto, h⟩
    · rw [redactL, if_neg hm] at hp
      simp only [descL, List.mem_cons, List.mem_append] at hp
      rcases hp with rfl | hp | hp
      · refine ⟨c, by simp [descL], ?_, rfl, by simpa using hm⟩
        rw [redactE_tag] at htag; exact htag
      · obtain ⟨q, hq, h⟩ := redact_sound_E c p hp htag
        exact ⟨q, by simp [descL, List.mem_append]; tauto, h⟩
      · obtain ⟨q, hq, h⟩ := redact_sound_L cs p hp htag
        exact ⟨q, by simp [descL, List.mem_append]; tauto, h⟩
end

/-- C2 (amended): after redaction, every surviving `property` node (at any
depth) has a name free of "password" (case-insensitive); it is the redacted
image of an original `property` node whose name and concatenated subtree
text, *as they stood when the loop tested it*, matched neither heuristic; and
no attribute survives on the record whose name contains "password"
(case-insensitive) or whose value matches the IPv4 pattern.  (The claim's
stronger reading — that no surviving field's *final* text matches the IPv4
pattern — fails; see the counterexample.) -/
theorem remove_sensitive_amended : ∀ obj : Elem,
    (∀ p ∈ descE (remove_sensitive obj), p.tag = "property" →
      containsSub pwList (pyLower ((p.get "name").getD "").toList) = false ∧
      ∃ q ∈ descE obj, q.tag = "property" ∧ p = redactE q ∧
        ipSearch (itertextE q) = false) ∧
    (∀ kv ∈ (remove_sensitive obj).attrib,
      containsSub pwList (pyLower kv.1.toList) = false ∧ ipSearch kv.2.toList = false)
  | .mk t a x cs tl => by
    constructor
    · intro p hp htag
      obtain ⟨q, hq, hqtag, rfl, hqm⟩ := redact_sound_L cs p hp htag
      rw [matchedProp, hqtag] at hqm
      simp only [beq_self_eq_true, Bool.true_and, Bool.or_eq_false_iff] at hqm
      refine ⟨?_, q, hq, hqtag, rfl, hqm.2⟩
      have : (redactE q).get "name" = q.get "name" := by
        rw [Elem.get, Elem.get, redactE_attrib]
      rw [this]
      exact hqm.1
    · intro kv hkv
      rw [remove_sensitive] at hkv
      simp only [Elem.attrib, List.mem_filter, Bool.not_eq_true'] at hkv
      have := hkv.2
      rw [sensAttr] at this
      simp only [Bool.or_eq_false_iff] at this
      exact this

/-- The record of the C2 counterexample: a clean outer property whose text
parts read "1.2." / "x" / "3.4", where the "x" belongs to a password-named
nested property.  Removing the nested property splices the surrounding text
into "1.2.3.4". -/
def c2X : Elem :=
  .mk "object" [] none
    (.cons (.mk "property" [("name", "a")] (some "1.2.")
      (.cons (.mk "property" [("name", "password")] (some "x") .nil none)
        (.cons (.mk "val" [] (some "3.4") .nil none) .nil)) none) .nil) none

/-- C2 as stated is false on `c2X`: the surviving outer property's
concatenated descendant text matches the IPv4 pattern after redaction (its
pre-redaction text "1.2.x3.4" did not match, so the field survived, but
removing the password-named nested field created the match "1.2.3.4"). -/
theorem remove_sensitive_counterexample :
    ¬ (∀ p ∈ descE (remove_sensitive c2X), p.tag = "property" →
        containsSub pwList (pyLower ((p.get "name").getD "").toList) = false ∧
        ipSearch (itertextE p) = false) := by
  decide

/-- A record with one innocuous property, used to instantiate the C2 theorem. -/
def c2W : Elem :=
  .mk "object" [("note", "ok")] none
    (.cons (.mk "property" [("name", "note")] (some "hello") .nil none) .nil) none

theorem remove_sensitive_amended_witness :
    (containsSub pwList
      (pyLower (((( .mk "property" [("name", "note")] (some "hello") .nil none : Elem)).get "name").getD "").toList) = false ∧
      ∃ q ∈ descE c2W, q.tag = "property" ∧
        (.mk "property" [("name", "note")] (some "hello") .nil none : Elem) = redactE q ∧
        ipSearch (itertextE q) = false) ∧
    (("note", "ok") ∈ (remove_sensitive c2W).attrib →
      containsSub pwList (pyLower "note".toList) = false ∧ ipSearch "ok".toList = false) := by
  constructor
  · exact (remove_sensitive_amended c2W).1
      (.mk "property" [("name", "note")] (some "hello") .nil none) (by decide) (by decide)
  · intro h
    exact (remove_sensitive_amended c2W).2 ("note", "ok") h

/-- A namespaced element carrying a namespaced attribute name. -/
def nsSample : Elem :=
  .mk "\x7bhttp://ns\x7dobject" [("\x7bhttp://ns\x7dclass", "Page")] (some "t")
    (.cons (.mk "\x7bhttp://ns\x7did" [] (some "1") .nil none) .nil) (some "tl")

/-- C9: `strip_ns` modifies only element tag names: for every node of the
tree, its attribute names, attribute values, text, tail, and child structure
are unchanged; in particular an attribute whose name carries a namespace
qualifier keeps the qualifier, as the concrete sample shows (the tag is
stripped but the attribute name `{http://ns}class` survives verbatim). -/
theorem strip_ns_frame_preserved :
    (∀ e : Elem, frameE (strip_nsE e) = frameE e) ∧
    strip_nsE nsSample =
      .mk "object" [("\x7bhttp://ns\x7dclass", "Page")] (some "t")
        (.cons (.mk "id" [] (some "1") .nil none) .nil) (some "tl") :=
  ⟨strip_ns_frame_E, by decide⟩

/-! ### `promote_title` (source lines 62-69)

```python
def promote_title(obj):
    prop = obj.find('./property[@name="title"]')
    if not prop:
        return
    title_el = ET.Element('title')
    title_el.text = (prop.text or '').strip()
    obj.insert(0, title_el)
    obj.remove(prop)
```

`find('./property[@name="title"]')` looks only at *direct* children and
returns the first `property` child whose `name` attribute equals `"title"`
(case-sensitive).  `if not prop:` is an `Element` truth test: it is taken
both when no such child exists (`None`) and when the found element has no
child elements (CPython ≤ 3.13 semantics of the deprecated
`Element.__bool__`).  When promotion fires, a fresh `<title>` element whose
text is `prop.text` stripped is inserted at index 0 and `prop` (still the
first matching direct child) is removed from the direct children. -/

def isTitleProp (e : Elem) : Bool := e.tag == "property" && e.get "name" == some "title"

/-- The `<title>` element built from the matched property. -/
def titleNode (prop : Elem) : Elem :=
  .mk "title" [] (some (pyStripS ((prop.text).getD ""))) .nil none

def promote_title : Elem → Elem
  | .mk t a x cs tl =>
    match cs.toList.find? isTitleProp with
    | none => .mk t a x cs tl
    | some prop =>
      if prop.children.length == 0 then .mk t a x cs tl
      else .mk t a x (.ofList (titleNode prop :: cs.toList.eraseP isTitleProp)) tl

/-- C1 (amended): promotion acts only on the first direct-child property
named "title" (exact case), and only when that property has at least one
child element (the code's `if not prop:` truth test skips childless
elements); it then inserts a new title node as first child carrying the
property's immediate text, stripped (nested child content is not copied),
and removes that one property from the direct children — title-named
properties nested deeper in the subtree are neither promoted nor removed.
With no direct-child title property, or a childless first one, the record is
unchanged. -/
theorem promote_title_amended :
    (∀ (t : String) (a : List (String × String)) (x : Option String) (cs : ElemList)
       (tl : Option String) (prop : Elem),
       cs.toList.find? isTitleProp = some prop → prop.children.length ≠ 0 →
       promote_title (.mk t a x cs tl) =
         .mk t a x (.ofList (titleNode prop :: cs.toList.eraseP isTitleProp)) tl) ∧
    (∀ (t : String) (a : List (String × String)) (x : Option String) (cs : ElemList)
       (tl : Option String),
       cs.toList.find? isTitleProp = none → promote_title (.mk t a x cs tl) = .mk t a x cs tl) ∧
    (∀ (t : String) (a : List (String × String)) (x : Option String) (cs : ElemList)
       (tl : Option String) (prop : Elem),
       cs.toList.find? isTitleProp = some prop → prop.children.length = 0 →
       promote_title (.mk t a x cs tl) = .mk t a x cs tl) := by
  refine ⟨?_, ?_, ?_⟩
  · intro t a x cs tl prop hf hne
    rw [promote_title, hf]
    simp [hne]
  · intro t a x cs tl hf
    rw [promote_title, hf]
  · intro t a x cs tl prop hf he
    rw [promote_title, hf]
    simp [he]

/-- The record of the C1 counterexample: its only child is a direct
`<property name="title">Hello</property>` with text but no child elements. -/
def c1X : Elem :=
  .mk "object" [("class", "Page")] none
    (.cons (.mk "property" [("name", "title")] (some "Hello") .nil none) .nil) none

/-- C1 as stated is false on `c1X`: the record contains a property named
"title", yet after promotion no "title" node is its first child and the
title-named field still sits in its subtree — `if not prop:` is true for the
childless element, so `promote_title` returns the record unchanged. -/
theorem promote_title_counterexample :
    ¬ ((descE c1X).any isTitleProp = true →
        (promote_title c1X).children.toList.head?.map Elem.tag = some "title" ∧
        (descE (promote_title c1X)).all (fun p => !isTitleProp p) = true) := by
  decide

/-- A record whose first direct title property has a child element, so
promotion fires. -/
def c1W : Elem :=
  .mk "object" [] none
    (.cons (.mk "property" [("name", "title")] (some " Hi ")
        (.cons (.mk "b" [] (some "x") .nil none) .nil) none)
      (.cons (.mk "id" [("name", "id")] (some "4") .nil none) .nil)) none

def c1WnoTitle : Elem :=
  .mk "object" [] none (.cons (.mk "id" [("name", "id")] (some "4") .nil none) .nil) none

theorem promote_title_amended_witness :
    promote_title c1W =
      .mk "object" [] none
        (.cons (.mk "title" [] (some "Hi") .nil none)
          (.cons (.mk "id" [("name", "id")] (some "4") .nil none) .nil)) none ∧
    promote_title c1WnoTitle = c1WnoTitle ∧
    promote_title c1X = c1X := by
  refine ⟨?_, ?_, ?_⟩
  · have h := promote_title_amended.1 "object" [] none
      (.cons (.mk "property" [("name", "title")] (some " Hi ")
          (.cons (.mk "b" [] (some "x") .nil none) .nil) none)
        (.cons (.mk "id" [("name", "id")] (some "4") .nil none) .nil)) none
      (.mk "property" [("name", "title")] (some " Hi ")
        (.cons (.mk "b" [] (some "x") .nil none) .nil) none)
      (by decide) (by decide)
    exact h.trans (by decide)
  · exact promote_title_amended.2.1 "object" [] none
      (.cons (.mk "id" [("name", "id")] (some "4") .nil none) .nil) none (by decide)
  · exact promote_title_amended.2.2 "object" [("class", "Page")] none
      (.cons (.mk "property" [("name", "title")] (some "Hello") .nil none) .nil) none
      (.mk "property" [("name", "title")] (some "Hello") .nil none) (by decide) (by decide)

/-! ### Python `int()` on strings -/

/- `int(s)` for base 10: optional surrounding whitespace, an optional sign,
then digits in which single underscores may separate digit groups.  A string
that does not fit this grammar raises `ValueError`, modelled by `none`. -/

def pyIntDigits (acc : Nat) : List Char → Option Nat
  | [] => some acc
  | c :: rest =>
    if c.isDigit then pyIntDigits (acc * 10 + (c.toNat - 48)) rest
    else if c = '_' then
      match rest with
      | d :: rest' =>
        if d.isDigit then pyIntDigits (acc * 10 + (d.toNat - 48)) rest' else none
      | [] => none
    else none

def pyIntBody (l : List Char) : Option Nat :=
  match l with
  | c :: rest => if c.isDigit then pyIntDigits (c.toNat - 48) rest else none
  | [] => none

def pyIntParse (s : String) : Option Int :=
  match pyStrip s.toList with
  | '+' :: rest => (pyIntBody rest).map Int.ofNat
  | '-' :: rest => (pyIntBody rest).map (fun n => -(Int.ofNat n))
  | rest => (pyIntBody rest).map Int.ofNat

example : pyIntParse "10" = some 10 := by decide
example : pyIntParse " -3 " = some (-3) := by decide
example : pyIntParse "1_0" = some 10 := by decide
example : pyIntParse "abc" = none := by decide
example : pyIntParse "12x" = none := by decide
example : pyIntParse "" = none := by decide

/-! ### `find` / `findtext` on direct-child paths -/

/-- `elem.find(path)` for a direct-child path with an optional attribute
predicate: the first child satisfying `p`, in order. -/
def findChild (e : Elem) (p : Elem → Bool) : Option Elem :=
  e.children.toList.find? p

/-- `elem.findtext(path, default=dflt)`: the text of the first matching
child (the empty string when the element has no text), else the default. -/
def findtext (e : Elem) (p : Elem → Bool) (dflt : String) : String :=
  match findChild e p with
  | none => dflt
  | some c => (c.text).getD ""

/-- The path `id[@name="id"]`. -/
def isIdId (c : Elem) : Bool := c.tag == "id" && c.get "name" == some "id"

/-- The path `property[@name="creationDate"]`. -/
def isCreationDateProp (c : Elem) : Bool :=
  c.tag == "property" && c.get "name" == some "creationDate"

/-- The path `title`. -/
def isTitleTag (c : Elem) : Bool := c.tag == "title"

/-! ### `get_sort_key` (source lines 72-85)

```python
def get_sort_key(mode):
    if mode == 'id':
        return lambda o: int(o.findtext('id[@name="id"]', default='0') or 0)
    if mode == 'title':
        return lambda o: (o.findtext('title', default='') or '').lower()
    if mode == 'creationDate':
        def key_fn(o):
            s = o.findtext('property[@name="creationDate"]', default='')
            try:
                return datetime.strptime(s[:19], '%Y-%m-%d %H:%M:%S')
            except ValueError:
                return datetime.min
        return key_fn
    return lambda o: 0
```

The id key can raise: `findtext` yields `'0'` when no id child exists and
`''` when the child has empty/absent text; `'' or 0` turns the empty string
into the integer 0; any other non-integer text reaches `int()` and raises
`ValueError`.  The raise is modelled with `Except`. -/

def get_sort_key_id (o : Elem) : Except String Int :=
  if findtext o isIdId "0" == "" then .ok 0
  else
    match pyIntParse (findtext o isIdId "0") with
    | some n => .ok n
    | none => .error "ValueError"

instance {ε α : Type} [DecidableEq ε] [DecidableEq α] : DecidableEq (Except ε α) :=
  fun a b =>
    match a, b with
    | .ok a, .ok b =>
      if h : a = b then .isTrue (by rw [h]) else .isFalse (by simp [h])
    | .error a, .error b =>
      if h : a = b then .isTrue (by rw [h]) else .isFalse (by simp [h])
    | .ok _, .error _ => .isFalse (by simp)
    | .error _, .ok _ => .isFalse (by simp)

theorem findtext_none (e : Elem) (p : Elem → Bool) (d : String)
    (h : findChild e p = none) : findtext e p d = d := by
  rw [findtext, h]

theorem findtext_some (e : Elem) (p : Elem → Bool) (d : String) (c : Elem)
    (h : findChild e p = some c) : findtext e p d = (c.text).getD "" := by
  rw [findtext, h]

/-- The title key (total): `(o.findtext('title', default='') or '').lower()`. -/
def get_sort_key_title (o : Elem) : String :=
  pyLowerS (findtext o isTitleTag "")

/-! ### A stable ascending sort keyed by a strict comparison

`list.sort(key=f)` is a stable ascending sort: elements are ordered by
`f(a) < f(b)` and ties keep their original relative order.  `sortK lt` is
insertion sort from the right; an element is inserted after every earlier
element whose key is strictly smaller and before the first earlier element
whose key is not, which is exactly the stable order. -/

def insertK {α : Type} (lt : α → α → Bool) (x : α) : List α → List α
  | [] => [x]
  | y :: ys => if lt y x then y :: insertK lt x ys else x :: y :: ys

def sortK {α : Type} (lt : α → α → Bool) : List α → List α
  | [] => []
  | x :: xs => insertK lt x (sortK lt xs)

theorem insertK_perm {α : Type} (lt : α → α → Bool) (x : α) :
    ∀ l : List α, (insertK lt x l).Perm (x :: l)
  | [] => List.Perm.refl _
  | y :: ys => by
    rw [insertK]
    split
    · exact ((insertK_perm lt x ys).cons y).trans (List.Perm.swap x y ys)
    · exact List.Perm.refl _

theorem sortK_perm {α : Type} (lt : α → α → Bool) :
    ∀ l : List α, (sortK lt l).Perm l
  | [] => List.Perm.refl _
  | x :: xs => (insertK_perm lt x (sortK lt xs)).trans ((sortK_perm lt xs).cons x)

theorem insertK_mem {α : Type} (lt : α → α → Bool) (x z : α) (l : List α)
    (h : z ∈ insertK lt x l) : z = x ∨ z ∈ l := by
  have h2 := (insertK_perm lt x l).mem_iff.mp h
  simpa using h2

theorem insertK_pairwise {α : Type} (lt : α → α → Bool)
    (hconn : ∀ z x y, lt z x = true → lt y x = false → lt z y = true)
    (hasym : ∀ a b, lt a b = true → lt b a = false)
    (x : α) : ∀ l : List α, l.Pairwise (fun a b => lt b a = false) →
      (insertK lt x l).Pairwise (fun a b => lt b a = false)
  | [], _ => List.pairwise_singleton _ x
  | y :: ys, h => by
    rw [List.pairwise_cons] at h
    rw [insertK]
    split
    · rename_i hyx
      rw [List.pairwise_cons]
      refine ⟨?_, insertK_pairwise lt hconn hasym x ys h.2⟩
      intro z hz
      rcases insertK_mem lt x z ys hz with rfl | hzys
      · exact hasym y z hyx
      · exact h.1 z hzys
    · rename_i hyx
      rw [List.pairwise_cons]
      have hyx' : lt y x = false := by
        cases hxy : lt y x
        · rfl
        · exact absurd hxy hyx
      refine ⟨?_, List.pairwise_cons.mpr h⟩
      intro z hz
      rw [List.mem_cons] at hz
      rcases hz with rfl | hzys
      · exact hyx'
      · cases hzx : lt z x
        · rfl
        · have := hconn z x y hzx hyx'
          rw [h.1 z hzys] at this
          cases this
  termination_by l => l.length

theorem sortK_pairwise {α : Type} (lt : α → α → Bool)
    (hconn : ∀ z x y, lt z x = true → lt y x = false → lt z y = true)
    (hasym : ∀ a b, lt a b = true → lt b a = false) :
    ∀ l : List α, (sortK lt l).Pairwise (fun a b => lt b a = false)
  | [] => List.Pairwise.nil
  | x :: xs => insertK_pairwise lt hconn hasym x (sortK lt xs)
      (sortK_pairwise lt hconn hasym xs)

/-- Keyed sorting as `list.sort(key=f)` performs it when the key function can
raise: CPython first computes every key (left to right), so a raising key
aborts the whole sort; otherwise the decorated list is sorted stably. -/
def pySortByKeyE {κ : Type} (lt : κ → κ → Bool) (key : Elem → Except String κ)
    (pages : List Elem) : Except String (List Elem) := do
  let ks ← pages.mapM (fun o => do let k ← key o; pure (k, o))
  pure ((sortK (fun a b => lt a.1 b.1) ks).map (fun kv => kv.2))

def intLt (a b : Int) : Bool := decide (a < b)

/-- A `Page` record with the given id text. -/
def mkIdRec (s : String) : Elem :=
  .mk "object" [("class", "Page")] none
    (.cons (.mk "id" [("name", "id")] (some s) .nil none) .nil) none

/-- A `Page` record with no id child at all. -/
def recNoId : Elem := .mk "object" [("class", "Page")] none .nil none

/-- C4 (amended): in identifier mode the key is the id-field text parsed as
an integer; a *missing* id element (findtext default `'0'`) or an *empty* id
text (`'' or 0`) silently yields key 0, but a non-empty id text that does not
parse as an integer raises `ValueError` instead of falling back to 0; the
claim's stable-sort example `{id=10, id=2, id=missing} ↦ [missing(0), id=2,
id=10]` does hold. -/
theorem get_sort_key_id_amended :
    (∀ o : Elem, findChild o isIdId = none → get_sort_key_id o = .ok 0) ∧
    (∀ o : Elem, ∀ c ∈ findChild o isIdId, (c.text).getD "" = "" →
      get_sort_key_id o = .ok 0) ∧
    (∀ o : Elem, ∀ c ∈ findChild o isIdId, (c.text).getD "" ≠ "" →
      pyIntParse ((c.text).getD "") = none → get_sort_key_id o = .error "ValueError") ∧
    pySortByKeyE intLt get_sort_key_id [mkIdRec "10", mkIdRec "2", recNoId] =
      .ok [recNoId, mkIdRec "2", mkIdRec "10"] := by
  refine ⟨?_, ?_, ?_, by decide⟩
  · intro o hnone
    rw [get_sort_key_id, findtext_none _ _ _ hnone]
    decide
  · intro o c hc hempty
    simp only [Option.mem_def] at hc
    rw [get_sort_key_id, findtext_some _ _ _ _ hc, hempty]
    decide
  · intro o c hc hne hparse
    simp only [Option.mem_def] at hc
    rw [get_sort_key_id, findtext_some _ _ _ _ hc]
    have hb : ((c.text.getD "" == "") = false) := by
      cases h : c.text.getD "" == ""
      · rfl
      · exact absurd (by simpa using h) hne
    simp only [hb, Bool.false_eq_true, if_false, hparse]

/-- The record of the C4 counterexample: its id text is `"abc"`. -/
def c4X : Elem := mkIdRec "abc"

/-- C4 as stated is false on `c4X`: a record whose id text is unparseable
does not get key 0 with no error — `int('abc')` raises `ValueError`. -/
theorem get_sort_key_id_counterexample :
    get_sort_key_id c4X ≠ .ok 0 ∧ get_sort_key_id c4X = .error "ValueError" := by
  decide

theorem get_sort_key_id_amended_witness :
    get_sort_key_id recNoId = .ok 0 ∧
    get_sort_key_id (mkIdRec "") = .ok 0 ∧
    get_sort_key_id (mkIdRec "x7") = .error "ValueError" := by
  refine ⟨?_, ?_, ?_⟩
  · exact get_sort_key_id_amended.1 recNoId (by decide)
  · exact get_sort_key_id_amended.2.1 (mkIdRec "")
      (.mk "id" [("name", "id")] (some "") .nil none) (by decide) (by decide)
  · exact get_sort_key_id_amended.2.2.1 (mkIdRec "x7")
      (.mk "id" [("name", "id")] (some "x7") .nil none) (by decide) (by decide) (by decide)

/-! ### `datetime.strptime(s[:19], '%Y-%m-%d %H:%M:%S')`

`_strptime` compiles the format into the regex
`(\d\d\d\d)\-(1[0-2]|0[1-9]|[1-9])\-(3[01]|[12]\d|0[1-9]|[1-9])
 (2[0-3]|[01]\d|\d):([0-5]\d|\d):([0-5]\d|\d)` and demands that it consume
the whole string; `datetime(...)` then validates the day against the month
length (and the year against `MINYEAR = 1`), raising `ValueError` otherwise.
Each alternation below is length-disjoint from its one-digit fallback — a
two-digit reading is followed by a non-digit separator, which the one-digit
reading would have to match against a digit — so committed choice (longest
shape first) is equivalent to the regex backtracking. -/

structure DateTime where
  y : Nat
  m : Nat
  d : Nat
  hh : Nat
  mi : Nat
  ss : Nat
deriving DecidableEq

/-- `%Y`: exactly four digits. -/
def pYear : List Char → Option (Nat × List Char)
  | a :: b :: c :: d :: rest =>
    if a.isDigit && b.isDigit && c.isDigit && d.isDigit then
      some ((((a.toNat - 48) * 10 + (b.toNat - 48)) * 10 + (c.toNat - 48)) * 10
        + (d.toNat - 48), rest)
    else none
  | _ => none

def pLit (ch : Char) : List Char → Option (List Char)
  | c :: rest => if c = ch then some rest else none
  | [] => none

/-- `%m`: `1[0-2] | 0[1-9] | [1-9]`. -/
def pMonth : List Char → Option (Nat × List Char)
  | c1 :: c2 :: rest2 =>
    if c1.toNat = 49 && (48 ≤ c2.toNat && c2.toNat ≤ 50) then
      some (10 + (c2.toNat - 48), rest2)
    else if c1.toNat = 48 && (49 ≤ c2.toNat && c2.toNat ≤ 57) then
      some (c2.toNat - 48, rest2)
    else if 49 ≤ c1.toNat && c1.toNat ≤ 57 then some (c1.toNat - 48, c2 :: rest2)
    else none
  | [c1] => if 49 ≤ c1.toNat && c1.toNat ≤ 57 then some (c1.toNat - 48, []) else none
  | [] => none

/-- `%d`: `3[01] | [12]\d | 0[1-9] | [1-9]`. -/
def pDay : List Char → Option (Nat × List Char)
  | c1 :: c2 :: rest2 =>
    if c1.toNat = 51 && (48 ≤ c2.toNat && c2.toNat ≤ 49) then
      some (30 + (c2.toNat - 48), rest2)
    else if (49 ≤ c1.toNat && c1.toNat ≤ 50) && (48 ≤ c2.toNat && c2.toNat ≤ 57) then
      some ((c1.toNat - 48) * 10 + (c2.toNat - 48), rest2)
    else if c1.toNat = 48 && (49 ≤ c2.toNat && c2.toNat ≤ 57) then
      some (c2.toNat - 48, rest2)
    else if 49 ≤ c1.toNat && c1.toNat ≤ 57 then some (c1.toNat - 48, c2 :: rest2)
    else none
  | [c1] => if 49 ≤ c1.toNat && c1.toNat ≤ 57 then some (c1.toNat - 48, []) else none
  | [] => none

/-- `%H`: `2[0-3] | [01]\d | \d`. -/
def pHour : List Char → Option (Nat × List Char)
  | c1 :: c2 :: rest2 =>
    if c1.toNat = 50 && (48 ≤ c2.toNat && c2.toNat ≤ 51) then
      some (20 + (c2.toNat - 48), rest2)
    else if (48 ≤ c1.toNat && c1.toNat ≤ 49) && (48 ≤ c2.toNat && c2.toNat ≤ 57) then
      some ((c1.toNat - 48) * 10 + (c2.toNat - 48), rest2)
    else if 48 ≤ c1.toNat && c1.toNat ≤ 57 then some (c1.toNat - 48, c2 :: rest2)
    else none
  | [c1] => if 48 ≤ c1.toNat && c1.toNat ≤ 57 then some (c1.toNat - 48, []) else none
  | [] => none

/-- `%M` and `%S`: `[0-5]\d | \d`. -/
def pMinSec : List Char → Option (Nat × List Char)
  | c1 :: c2 :: rest2 =>
    if (48 ≤ c1.toNat && c1.toNat ≤ 53) && (48 ≤ c2.toNat && c2.toNat ≤ 57) then
      some ((c1.toNat - 48) * 10 + (c2.toNat - 48), rest2)
    else if 48 ≤ c1.toNat && c1.toNat ≤ 57 then some (c1.toNat - 48, c2 :: rest2)
    else none
  | [c1] => if 48 ≤ c1.toNat && c1.toNat ≤ 57 then some (c1.toNat - 48, []) else none
  | [] => none

def isLeapYear (y : Nat) : Bool := y % 4 = 0 && (y % 100 ≠ 0 || y % 400 = 0)

def daysInMonth (y m : Nat) : Nat :=
  if m = 2 then (if isLeapYear y then 29 else 28)
  else if m = 4 || m = 6 || m = 9 || m = 11 then 30
  else 31

/-- The whole `datetime.strptime(s[:19], '%Y-%m-%d %H:%M:%S')`, `ValueError`
as `none`. -/
def pyStrptime19 (s : String) : Option DateTime :=
  (do
    let (y, r) ← pYear (s.toList.take 19)
    let r ← pLit '-' r
    let (m, r) ← pMonth r
    let r ← pLit '-' r
    let (d, r) ← pDay r
    let r ← pLit ' ' r
    let (hh, r) ← pHour r
    let r ← pLit ':' r
    let (mi, r) ← pMinSec r
    let r ← pLit ':' r
    let (ss, r) ← pMinSec r
    if r.isEmpty then
      if 1 ≤ y && d ≤ daysInMonth y m then some ⟨y, m, d, hh, mi, ss⟩
      else none
    else none : Option DateTime)

/-- `datetime.min = 0001-01-01 00:00:00`. -/
def dtMin : DateTime := ⟨1, 1, 1, 0, 0, 0⟩

/-- Lexicographic comparison of `datetime` values. -/
def ltDT (a b : DateTime) : Bool :=
  decide (a.y < b.y) || (decide (a.y = b.y) &&
    (decide (a.m < b.m) || (decide (a.m = b.m) &&
      (decide (a.d < b.d) || (decide (a.d = b.d) &&
        (decide (a.hh < b.hh) || (decide (a.hh = b.hh) &&
          (decide (a.mi < b.mi) || (decide (a.mi = b.mi) &&
            decide (a.ss < b.ss))))))))))

example : pyStrptime19 "2021-06-05 12:30:45.123456" = some ⟨2021, 6, 5, 12, 30, 45⟩ := by decide
example : pyStrptime19 "2021-6-5 1:2:3" = some ⟨2021, 6, 5, 1, 2, 3⟩ := by decide
example : pyStrptime19 "2021-02-30 00:00:00" = none := by decide
example : pyStrptime19 "2020-02-29 00:00:00" = some ⟨2020, 2, 29, 0, 0, 0⟩ := by decide
example : pyStrptime19 "" = none := by decide
example : pyStrptime19 "0000-01-01 00:00:00" = none := by decide
example : pyStrptime19 "2021-13-01 00:00:00" = none := by decide

/-- The creationDate key (source lines 77-84): parse the first 19 characters
of the record's `property[@name="creationDate"]` text; on `ValueError`
return `datetime.min`. -/
def get_sort_key_creationDate (o : Elem) : DateTime :=
  match pyStrptime19 (findtext o isCreationDateProp "") with
  | some dt => dt
  | none => dtMin

/-- `pages.sort(key=get_sort_key('creationDate'))` (keys are total here). -/
def pySortByDate (pages : List Elem) : List Elem :=
  sortK (fun a b => ltDT (get_sort_key_creationDate a) (get_sort_key_creationDate b)) pages

theorem pMonth_bounds (l : List Char) (m : Nat) (r : List Char)
    (h : pMonth l = some (m, r)) : 1 ≤ m ∧ m ≤ 12 := by
  match l with
  | [] => exact absurd h (by simp [pMonth])
  | [c1] =>
    rw [pMonth] at h
    split at h
    · rename_i hc
      simp only [Option.some.injEq, Prod.mk.injEq] at h
      simp only [Bool.and_eq_true, decide_eq_true_eq] at hc
      omega
    · exact absurd h (by simp)
  | c1 :: c2 :: rest2 =>
    rw [pMonth] at h
    split at h <;> rename_i hc <;>
      [skip; (split at h <;> rename_i hc2 <;> [skip; (split at h <;> rename_i hc3)])]
    · simp only [Option.some.injEq, Prod.mk.injEq] at h
      simp only [Bool.and_eq_true, decide_eq_true_eq] at hc
      omega
    · simp only [Option.some.injEq, Prod.mk.injEq] at h
      simp only [Bool.and_eq_true, decide_eq_true_eq] at hc2
      omega
    · simp only [Option.some.injEq, Prod.mk.injEq] at h
      simp only [Bool.and_eq_true, decide_eq_true_eq] at hc3
      omega
    · exact absurd h (by simp)

theorem pDay_pos (l : List Char) (d : Nat) (r : List Char)
    (h : pDay l = some (d, r)) : 1 ≤ d := by
  match l with
  | [] => exact absurd h (by simp [pDay])
  | [c1] =>
    rw [pDay] at h
    split at h
    · rename_i hc
      simp only [Option.some.injEq, Prod.mk.injEq] at h
      simp only [Bool.and_eq_true, decide_eq_true_eq] at hc
      omega
    · exact absurd h (by simp)
  | c1 :: c2 :: rest2 =>
    rw [pDay] at h
    split at h <;> rename_i hc <;>
      [skip;
       (split at h <;> rename_i hc2 <;>
         [skip; (split at h <;> rename_i hc3 <;> [skip; (split at h <;> rename_i hc4)])])]
    · simp only [Option.some.injEq, Prod.mk.injEq] at h
      simp only [Bool.and_eq_true, decide_eq_true_eq] at hc
      omega
    · simp only [Option.some.injEq, Prod.mk.injEq] at h
      simp only [Bool.and_eq_true, decide_eq_true_eq] at hc2
      omega
    · simp only [Option.some.injEq, Prod.mk.injEq] at h
      simp only [Bool.and_eq_true, decide_eq_true_eq] at hc3
      omega
    · simp only [Option.some.injEq, Prod.mk.injEq] at h
      simp only [Bool.and_eq_true, decide_eq_true_eq] at hc4
      omega
    · exact absurd h (by simp)

/-- Every successfully parsed datetime has year ≥ 1, month ≥ 1 and day ≥ 1,
hence is not below `datetime.min`. -/
theorem pyStrptime19_ge_min (s : String) (dt : DateTime)
    (h : pyStrptime19 s = some dt) : ltDT dt dtMin = false := by
  rw [pyStrptime19] at h
  simp only [Option.bind_eq_bind, Option.bind_eq_some] at h
  obtain ⟨⟨y, r1⟩, hy, h⟩ := h
  obtain ⟨r2, hl1, h⟩ := h
  obtain ⟨⟨m, r3⟩, hm, h⟩ := h
  obtain ⟨r4, hl2, h⟩ := h
  obtain ⟨⟨d, r5⟩, hd, h⟩ := h
  obtain ⟨r6, hl3, h⟩ := h
  obtain ⟨⟨hh, r7⟩, hhh, h⟩ := h
  obtain ⟨r8, hl4, h⟩ := h
  obtain ⟨⟨mi, r9⟩, hmi, h⟩ := h
  obtain ⟨r10, hl5, h⟩ := h
  obtain ⟨⟨ss, r11⟩, hss, h⟩ := h
  split at h
  · split at h
    · rename_i hcond
      simp only [Option.some.injEq] at h
      simp only [Bool.and_eq_true, decide_eq_true_eq] at hcond
      obtain ⟨hm1, hm2⟩ := pMonth_bounds _ _ _ hm
      have hd1 := pDay_pos _ _ _ hd
      subst h
      simp only [ltDT, dtMin]
      simp only [Bool.or_eq_false_iff, Bool.and_eq_false_iff, decide_eq_false_iff_not]
      omega
    · exact absurd h (by simp)
  · exact absurd h (by simp)

/-- C5 (amended): in timestamp mode the key comes only from the record's
direct-child `property[@name="creationDate"]` text (no attribute is
consulted): the first 19 characters are parsed with format
`YYYY-MM-DD HH:MM:SS`, and a missing or unparseable value receives
`datetime.min`, which never compares strictly after a parsed date — so such
records sort before or tie with every record carrying a valid date (a tie
happens exactly when the valid date *is* `0001-01-01 00:00:00`; stable order
then decides, see the counterexample). -/
theorem get_sort_key_creationDate_amended :
    (∀ o : Elem, pyStrptime19 (findtext o isCreationDateProp "") = none →
      get_sort_key_creationDate o = dtMin) ∧
    (∀ o : Elem, ∀ dt : DateTime,
      pyStrptime19 (findtext o isCreationDateProp "") = some dt →
      get_sort_key_creationDate o = dt ∧ ltDT dt dtMin = false) := by
  constructor
  · intro o h
    rw [get_sort_key_creationDate, h]
  · intro o dt h
    refine ⟨by rw [get_sort_key_creationDate, h], pyStrptime19_ge_min _ _ h⟩

/-- A record whose creationDate is the minimum representable timestamp. -/
def c5A : Elem :=
  .mk "object" [("class", "Page")] none
    (.cons (.mk "property" [("name", "creationDate")] (some "0001-01-01 00:00:00") .nil none)
      .nil) none

/-- A record with no creationDate at all. -/
def c5B : Elem := .mk "object" [("class", "Page")] none .nil none

/-- C5 as stated is false on `[c5A, c5B]`: `c5B`, whose date is missing,
receives `datetime.min` — but `c5A` carries the *valid* date
`0001-01-01 00:00:00`, which parses to the very same key, so the stable sort
leaves the missing-date record *after* the valid-dated one rather than
before it. -/
theorem get_sort_key_creationDate_counterexample :
    pyStrptime19 "0001-01-01 00:00:00" = some dtMin ∧
    findChild c5B isCreationDateProp = none ∧
    get_sort_key_creationDate c5B = dtMin ∧
    pySortByDate [c5A, c5B] = [c5A, c5B] := by
  decide

theorem get_sort_key_creationDate_amended_witness :
    get_sort_key_creationDate c5B = dtMin ∧
    (get_sort_key_creationDate c5A = dtMin ∧ ltDT dtMin dtMin = false) := by
  constructor
  · exact get_sort_key_creationDate_amended.1 c5B (by decide)
  · exact get_sort_key_creationDate_amended.2 c5A dtMin (by decide)

/-! ### `URL_RE = re.compile(r"https?://[^\s<>\]]+")` and `linkify`
(source lines 24, 88-97)

```python
def linkify(text):
    parts = URL_RE.split(text)
    urls = URL_RE.findall(text)
    out = []
    for i, part in enumerate(parts):
        out.append(html.escape(part))
        if i < len(urls):
            u = html.escape(urls[i])
            out.append(f'<a href="{u}" target="_blank">{u}</a>')
    return ''.join(out)
```

`re.split` on a groupless pattern returns the literal segments between
matches and `re.findall` the matches themselves; both arise from the same
leftmost scan, realized once by `urlScan` below.  A match is `http://` or
`https://` (the greedy `s?` first) followed by a maximal non-empty run of
characters that are not whitespace, `<`, `>` or `]`. -/

def urlChar (c : Char) : Bool := !(pySpace c || c = '<' || c = '>' || c = ']')

/-- Continue a scheme match: a maximal non-empty run of URL characters. -/
def mkUrlFrom (scheme rest : List Char) : Option (List Char × List Char) :=
  if (rest.takeWhile urlChar).isEmpty then none
  else some (scheme ++ rest.takeWhile urlChar, rest.dropWhile urlChar)

/-- Try to match `URL_RE` anchored at the head of `l`, returning the match
and the remainder. -/
def matchUrl (l : List Char) : Option (List Char × List Char) :=
  if ("https://".toList).isPrefixOf l then mkUrlFrom ("https://".toList) (l.drop 8)
  else if ("http://".toList).isPrefixOf l then mkUrlFrom ("http://".toList) (l.drop 7)
  else none

theorem mkUrlFrom_sound (scheme rest u r : List Char)
    (h : mkUrlFrom scheme rest = some (u, r)) : u ++ r = scheme ++ rest ∧ u ≠ [] := by
  rw [mkUrlFrom] at h
  split at h
  · exact absurd h (by simp)
  · rename_i hne
    simp only [Option.some.injEq, Prod.mk.injEq] at h
    obtain ⟨hu, hr⟩ := h
    subst hu
    subst hr
    constructor
    · rw [List.append_assoc, List.takeWhile_append_dropWhile]
    · intro hc
      rcases List.append_eq_nil.mp hc with ⟨h1, h2⟩
      rw [h2] at hne
      exact hne rfl

theorem matchUrl_sound (l u r : List Char) (h : matchUrl l = some (u, r)) :
    u ++ r = l ∧ u ≠ [] := by
  rw [matchUrl] at h
  split at h
  · rename_i hp
    obtain ⟨he, hne⟩ := mkUrlFrom_sound _ _ _ _ h
    refine ⟨?_, hne⟩
    rw [he]
    have hpre : ("https://".toList) <+: l := List.isPrefixOf_iff_prefix.mp hp
    have htake := List.prefix_iff_eq_take.mp hpre
    rw [show ("https://".toList).length = 8 from rfl] at htake
    conv_rhs => rw [← List.take_append_drop 8 l]
    rw [← htake]
  · split at h
    · rename_i hp
      obtain ⟨he, hne⟩ := mkUrlFrom_sound _ _ _ _ h
      refine ⟨?_, hne⟩
      rw [he]
      have hpre : ("http://".toList) <+: l := List.isPrefixOf_iff_prefix.mp hp
      have htake := List.prefix_iff_eq_take.mp hpre
      rw [show ("http://".toList).length = 7 from rfl] at htake
      conv_rhs => rw [← List.take_append_drop 7 l]
      rw [← htake]
    · exact absurd h (by simp)

/-- One leftmost scan producing `(URL_RE.split(text), URL_RE.findall(text))`.
The fuel argument only bounds the recursion; `urlScan` supplies one unit per
character, which always suffices because every step consumes at least one
character (the fuel-exhausted branch keeps the reconstruction law valid but
is unreachable from `urlScan`). -/
def urlScanAux : Nat → List Char → List Char → List (List Char) × List (List Char)
  | 0, acc, l => ([acc.reverse ++ l], [])
  | fuel + 1, acc, l =>
    match l with
    | [] => ([acc.reverse], [])
    | c :: rest =>
      match matchUrl (c :: rest) with
      | some (u, r) =>
        ((acc.reverse :: (urlScanAux fuel [] r).1), (u :: (urlScanAux fuel [] r).2))
      | none => urlScanAux fuel (c :: acc) rest

def urlScan (l : List Char) : List (List Char) × List (List Char) :=
  urlScanAux l.length [] l

/-- Interleave literal segments with matches: `p₀ ++ u₁ ++ p₁ ++ u₂ ++ ...`. -/
def joinInterleave : List (List Char) → List (List Char) → List Char
  | [], _ => []
  | p :: ps, [] => p ++ joinInterleave ps []
  | p :: ps, u :: us => p ++ u ++ joinInterleave ps us

/-- `html.escape(s)` with the default `quote=True`. -/
def escChar (c : Char) : List Char :=
  if c = '&' then "&amp;".toList
  else if c = '<' then "&lt;".toList
  else if c = '>' then "&gt;".toList
  else if c.toNat = 34 then "&quot;".toList
  else if c.toNat = 39 then "&#x27;".toList
  else [c]

def htmlEscape (l : List Char) : List Char := l.flatMap escChar

/-- `f'<a href="{u}" target="_blank">{u}</a>'` with `u` the escaped match. -/
def anchorHtml (u : List Char) : List Char :=
  "<a href=\"".toList ++ htmlEscape u ++ "\" target=\"_blank\">".toList ++
    htmlEscape u ++ "</a>".toList

/-- The join loop of `linkify`: escape each part, and after the `i`-th part
splice in the anchor for the `i`-th match while one remains. -/
def linkifyJoin : List (List Char) → List (List Char) → List Char
  | [], _ => []
  | p :: ps, [] => htmlEscape p ++ linkifyJoin ps []
  | p :: ps, u :: us => htmlEscape p ++ anchorHtml u ++ linkifyJoin ps us

def linkify (t : List Char) : List Char := linkifyJoin (urlScan t).1 (urlScan t).2

theorem urlScanAux_lengths : ∀ (fuel : Nat) (acc l : List Char),
    (urlScanAux fuel acc l).1.length = (urlScanAux fuel acc l).2.length + 1
  | 0, acc, l => by simp [urlScanAux]
  | fuel + 1, acc, l => by
    match l with
    | [] => simp [urlScanAux]
    | c :: rest =>
      rw [urlScanAux]
      cases hm : matchUrl (c :: rest) with
      | none => exact urlScanAux_lengths fuel (c :: acc) rest
      | some ur =>
        match ur with
        | (u, r) =>
          simp only [List.length_cons]
          rw [urlScanAux_lengths fuel [] r]

theorem urlScanAux_join : ∀ (fuel : Nat) (acc l : List Char),
    joinInterleave (urlScanAux fuel acc l).1 (urlScanAux fuel acc l).2 = acc.reverse ++ l
  | 0, acc, l => by simp [urlScanAux, joinInterleave]
  | fuel + 1, acc, l => by
    match l with
    | [] => simp [urlScanAux, joinInterleave]
    | c :: rest =>
      rw [urlScanAux]
      cases hm : matchUrl (c :: rest) with
      | none =>
        rw [urlScanAux_join fuel (c :: acc) rest, List.reverse_cons, List.append_assoc]
        rfl
      | some ur =>
        match ur with
        | (u, r) =>
          simp only [joinInterleave]
          rw [urlScanAux_join fuel [] r]
          obtain ⟨he, -⟩ := matchUrl_sound _ _ _ hm
          simp only [List.reverse_nil, List.nil_append, List.append_assoc, he]

theorem linkifyJoin_eq : ∀ (ps us : List (List Char)),
    linkifyJoin ps us = joinInterleave (ps.map htmlEscape) (us.map anchorHtml)
  | [], _ => by simp [linkifyJoin, joinInterleave]
  | p :: ps, [] => by
    simp only [linkifyJoin, List.map_cons, List.map_nil, joinInterleave]
    rw [linkifyJoin_eq ps []]
    simp [joinInterleave]
  | p :: ps, u :: us => by
    simp only [linkifyJoin, List.map_cons, joinInterleave, List.append_assoc]
    rw [linkifyJoin_eq ps us]

/-- C6: `linkify` splits the text on URL-pattern matches, escapes each
literal segment, and splices in one anchor per matched URL, preserving
original order and surrounding text: the parts and matches of the same scan
interleave back to the input (one more part than matches), and the output is
that interleaving with parts escaped and matches rendered as anchors; the
claim's concrete example renders as stated. -/
theorem linkify_spec :
    (∀ t : List Char,
      (urlScan t).1.length = (urlScan t).2.length + 1 ∧
      joinInterleave (urlScan t).1 (urlScan t).2 = t ∧
      linkify t = joinInterleave ((urlScan t).1.map htmlEscape)
        ((urlScan t).2.map anchorHtml)) ∧
    linkify "see http://a.example/x and http://b.example/y for info".toList =
      ("see <a href=\"http://a.example/x\" target=\"_blank\">http://a.example/x</a>" ++
       " and <a href=\"http://b.example/y\" target=\"_blank\">http://b.example/y</a>" ++
       " for info").toList ∧
    (urlScan "see http://a.example/x and http://b.example/y for info".toList).1 =
      ["see ".toList, " and ".toList, " for info".toList] ∧
    (urlScan "see http://a.example/x and http://b.example/y for info".toList).2 =
      ["http://a.example/x".toList, "http://b.example/y".toList] := by
  refine ⟨?_, by decide, by decide, by decide⟩
  intro t
  refine ⟨urlScanAux_lengths _ _ _, ?_, linkifyJoin_eq _ _⟩
  have h := urlScanAux_join t.length [] t
  simpa using h

/-! ### `write_sorted_xml` reassembly (source lines 106-111) and `main`'s
record selection (source lines 210, 217)

```python
pages = root.findall('.//object[@class="Page"]')   # any depth
...
def write_sorted_xml(tree, root, pages, out_xml):
    kept = [e for e in root if not (e.tag == 'object' and e.get('class') == 'Page')]
    root[:] = kept + pages
```

`findall('.//...')` selects qualifying records at *any* depth, while `kept`
filters only the root's *direct* children, so a record nested deeper stays
inside its preserved ancestor and is appended again. -/

def isPage (e : Elem) : Bool := e.tag == "object" && e.get "class" == some "Page"

/-- `root.findall('.//object[@class="Page"]')`: qualifying records at any
depth, in document order. -/
def findallPages (root : Elem) : List Elem := (descE root).filter isPage

/-- The preserved siblings: direct children that are not qualifying records,
in their original relative order. -/
def keptChildren (root : Elem) : List Elem :=
  root.children.toList.filter (fun e => !isPage e)

/-- `root[:] = kept + pages`. -/
def write_sorted_xml_root : Elem → List Elem → Elem
  | .mk t a x cs tl, pages =>
    .mk t a x (.ofList (cs.toList.filter (fun e => !isPage e) ++ pages)) tl

/-- The multiset of qualifying-record identifiers of a document, read off
the tree in document order (serializing and re-parsing an `Elem` tree is the
identity on the tree, so this is also what a re-parse of the output yields). -/
def recordIds (t : Elem) : List String :=
  (findallPages t).map (fun o => findtext o isIdId "")

/-- No qualifying record sits strictly below a direct child of the root:
every `Page` object is a direct child, and contains no nested `Page`. -/
def noNestedPages (root : Elem) : Bool :=
  root.children.toList.all (fun c => (descE c).all (fun d => !isPage d))

theorem toList_ofList : ∀ l : List Elem, (ElemList.ofList l).toList = l
  | [] => rfl
  | c :: cs => by simp only [ElemList.ofList, ElemList.toList, toList_ofList cs]

theorem descL_eq_flatMap : ∀ cs : ElemList,
    descL cs = cs.toList.flatMap (fun c => c :: descE c)
  | .nil => rfl
  | .cons c cs => by
    simp only [descL, ElemList.toList, List.flatMap_cons, descL_eq_flatMap cs,
      List.cons_append]

theorem filter_flatMap_self (l : List Elem)
    (h : ∀ c ∈ l, (descE c).all (fun d => !isPage d) = true) :
    (l.flatMap (fun c => c :: descE c)).filter isPage = l.filter isPage := by
  induction l with
  | nil => rfl
  | cons c cs ih =>
    simp only [List.flatMap_cons, List.filter_append, List.filter_cons]
    have hnest : (descE c).filter isPage = [] := by
      rw [List.filter_eq_nil_iff]
      intro a ha
      have := (List.all_eq_true.mp (h c (by simp))) a ha
      simp only [Bool.not_eq_true'] at this
      simp [this]
    rw [hnest, ih (fun c hc => h c (by simp [hc]))]
    split <;> simp

/-- Under `noNestedPages`, the deep search agrees with the direct-child
filter. -/
theorem findallPages_flat : ∀ (root : Elem), noNestedPages root = true →
    findallPages root = root.children.toList.filter isPage
  | .mk t a x cs tl, h => by
    rw [findallPages, descE, descL_eq_flatMap]
    rw [noNestedPages] at h
    exact filter_flatMap_self _ (fun c hc => List.all_eq_true.mp h c hc)

theorem filter_not_filter (l : List Elem) :
    (l.filter (fun e => !isPage e)).filter isPage = [] := by
  rw [List.filter_eq_nil_iff]
  intro a ha
  rw [List.mem_filter] at ha
  simp only [Bool.not_eq_true'] at ha
  simp [ha.2]

/-- C3 (amended): provided every qualifying record of the document is a
direct child of the root and no qualifying record is nested inside another
element, reassembly preserves the multiset of qualifying-record identifiers
(no record duplicated or dropped), the new child sequence is exactly the
preserved non-record siblings in their original relative order followed by
the sorted records, and the appended list is a permutation of the original
records arranged in ascending key order (stable).  Without that proviso the
claim fails: a nested record is duplicated — see the counterexample. -/
theorem write_sorted_xml_amended : ∀ (root : Elem) (lt : Elem → Elem → Bool),
    (∀ z x y, lt z x = true → lt y x = false → lt z y = true) →
    (∀ a b, lt a b = true → lt b a = false) →
    noNestedPages root = true →
    (recordIds (write_sorted_xml_root root (sortK lt (findallPages root)))).Perm
      (recordIds root) ∧
    (write_sorted_xml_root root (sortK lt (findallPages root))).children.toList =
      keptChildren root ++ sortK lt (findallPages root) ∧
    (sortK lt (findallPages root)).Perm (findallPages root) ∧
    (sortK lt (findallPages root)).Pairwise (fun a b => lt b a = false)
  | .mk t a x cs tl, lt, hconn, hasym, h => by
    set P := sortK lt (findallPages (.mk t a x cs tl)) with hP
    have hperm : P.Perm (findallPages (.mk t a x cs tl)) := by
      rw [hP]; exact sortK_perm lt _
    have hflat := findallPages_flat (.mk t a x cs tl) h
    simp only [Elem.children] at hflat
    have hchild : (write_sorted_xml_root (.mk t a x cs tl) P).children.toList =
        keptChildren (.mk t a x cs tl) ++ P := by
      simp only [write_sorted_xml_root, keptChildren, Elem.children, toList_ofList]
    refine ⟨?_, hchild, hperm, by rw [hP]; exact sortK_pairwise lt hconn hasym _⟩
    have hsorted_mem : ∀ c ∈ P, c ∈ cs.toList.filter isPage := by
      intro c hc
      have := hperm.mem_iff.mp hc
      rw [hflat] at this
      exact this
    have hnest : ∀ c ∈ cs.toList, (descE c).all (fun d => !isPage d) = true := by
      rw [noNestedPages] at h
      simp only [Elem.children] at h
      exact List.all_eq_true.mp h
    have hall : ∀ c ∈ cs.toList.filter (fun e => !isPage e) ++ P,
        (descE c).all (fun d => !isPage d) = true := by
      intro c hc
      rw [List.mem_append] at hc
      rcases hc with hc | hc
      · exact hnest c (List.mem_of_mem_filter hc)
      · exact hnest c (List.mem_of_mem_filter (hsorted_mem c hc))
    have hpagefilter : P.filter isPage = P := by
      rw [List.filter_eq_self]
      intro c hc
      exact (List.mem_filter.mp (hsorted_mem c hc)).2
    simp only [recordIds, findallPages, write_sorted_xml_root, descE, Elem.children,
      toList_ofList, descL_eq_flatMap]
    rw [filter_flatMap_self _ hall, List.filter_append, filter_not_filter,
      hpagefilter, List.nil_append, filter_flatMap_self _ hnest]
    refine List.Perm.map _ ?_
    rw [hflat] at hperm
    exact hperm

/-- The qualifying record of the C3 counterexample. -/
def c3Page : Elem := mkIdRec "1"

/-- A document whose only qualifying record sits one level deep, inside a
preserved non-record sibling. -/
def c3X : Elem :=
  .mk "root" [] none (.cons (.mk "wrap" [] none (.cons c3Page .nil) none) .nil) none

/-- C3 as stated is false on `c3X`: the record with id 1 is kept in place
inside its preserved ancestor *and* appended at the end, so the reassembled
document carries its identifier twice — the round-trip multiset gains a
duplicate. -/
theorem write_sorted_xml_counterexample :
    pySortByKeyE intLt get_sort_key_id (findallPages c3X) = .ok [c3Page] ∧
    recordIds c3X = ["1"] ∧
    recordIds (write_sorted_xml_root c3X [c3Page]) = ["1", "1"] ∧
    ¬ (recordIds (write_sorted_xml_root c3X [c3Page])).Perm (recordIds c3X) := by
  refine ⟨by decide, by decide, by decide, by decide⟩

/-- A flat document: two qualifying records around a preserved sibling. -/
def c3W : Elem :=
  .mk "root" [] none
    (.cons (mkIdRec "9")
      (.cons (.mk "meta" [] (some "keep") .nil none)
        (.cons (mkIdRec "3") .nil))) none

def c3lt (a b : Elem) : Bool :=
  intLt (match get_sort_key_id a with | .ok n => n | .error _ => 0)
        (match get_sort_key_id b with | .ok n => n | .error _ => 0)

theorem write_sorted_xml_amended_witness :
    (recordIds (write_sorted_xml_root c3W (sortK c3lt (findallPages c3W)))).Perm
      (recordIds c3W) ∧
    (write_sorted_xml_root c3W (sortK c3lt (findallPages c3W))).children.toList =
      keptChildren c3W ++ sortK c3lt (findallPages c3W) ∧
    (sortK c3lt (findallPages c3W)).Perm (findallPages c3W) ∧
    (sortK c3lt (findallPages c3W)).Pairwise (fun a b => c3lt b a = false) := by
  refine write_sorted_xml_amended c3W c3lt ?_ ?_ (by decide)
  · intro z x y hzx hyx
    simp only [c3lt, intLt, decide_eq_true_eq, decide_eq_false_iff_not] at *
    omega
  · intro a b hab
    simp only [c3lt, intLt, decide_eq_true_eq, decide_eq_false_iff_not] at *
    omega

/-! ### Totality of redaction and promotion (source lines 49-59, 62-69)

`remove_sensitive_runE` models the redaction loop itself, step by step, with
every Python operation that can raise surfaced in `Except`:

* the parent search `next((pr for pr in obj.iter() if p in pr), None)`
  yields the first node of the preorder walk having `p` among its direct
  children, or nothing;
* `if parent:` is again an `Element` truth test (false for `None` *and* for
  a childless element — a found parent always has `p` as a child, hence is
  truthy);
* `parent.remove(p)` raises `ValueError` when `p` is not among the parent's
  children.

Structural equality stands in for CPython object identity here (the two
coincide whenever no two distinct nodes of the record are structurally
identical, and the totality claim is insensitive to the difference).
Likewise `promote_titleE` surfaces the `ValueError` that `obj.remove(prop)`
would raise if the found property were not a direct child. -/

def findParentIn (obj p : Elem) : Option Elem :=
  (iterE obj).find? (fun pr => pr.children.toList.contains p)

/- Rebuild the tree with `p` erased from the children of every node equal to
`parent` (with distinct nodes, exactly the one parent). -/
mutual
def eraseUnderE (parent p : Elem) : Elem → Elem
  | .mk t a x cs tl =>
    if beqE (.mk t a x cs tl) parent then .mk t a x (.ofList (cs.toList.erase p)) tl
    else .mk t a x (eraseUnderL parent p cs) tl
def eraseUnderL (parent p : Elem) : ElemList → ElemList
  | .nil => .nil
  | .cons c cs => .cons (eraseUnderE parent p c) (eraseUnderL parent p cs)
end

/-- One removal attempt of the redaction loop. -/
def removeStep (obj p : Elem) : Except String Elem :=
  match findParentIn obj p with
  | none => .ok obj
  | some parent =>
    if parent.children.length == 0 then .ok obj
    else if p ∈ parent.children.toList then .ok (eraseUnderE parent p obj)
    else .error "ValueError"

/-- The snapshot `list(obj.findall('.//property'))`, in document order. -/
def snapshotProps (obj : Elem) : List Elem :=
  (descE obj).filter (fun p => p.tag == "property")

def filterAttrs : Elem → Elem
  | .mk t a x cs tl => .mk t (a.filter (fun kv => !sensAttr kv)) x cs tl

/-- The whole `remove_sensitive` body as the loop runs it: fold the removal
attempts over the snapshot (each matched node was tested against its
original state, see `remove_sensitive`), then drop the sensitive attributes. -/
def remove_sensitive_runE (obj : Elem) : Except String Elem := do
  let t ← (snapshotProps obj).foldlM
    (fun acc p => if matchedProp p then removeStep acc p else pure acc) obj
  pure (filterAttrs t)

/-- `promote_title` with the potential `ValueError` of `obj.remove(prop)`
surfaced. -/
def promote_titleE : Elem → Except String Elem
  | .mk t a x cs tl =>
    match cs.toList.find? isTitleProp with
    | none => .ok (.mk t a x cs tl)
    | some prop =>
      if prop.children.length == 0 then .ok (.mk t a x cs tl)
      else if prop ∈ titleNode prop :: cs.toList then
        .ok (.mk t a x (.ofList ((titleNode prop :: cs.toList).erase prop)) tl)
      else .error "ValueError"

theorem removeStep_ok (obj p : Elem) : ∃ r, removeStep obj p = .ok r := by
  rw [removeStep]
  split
  · exact ⟨obj, rfl⟩
  · rename_i parent hf
    rw [findParentIn] at hf
    have hpred := List.find?_some hf
    have hmem : p ∈ parent.children.toList := by
      rw [List.contains_eq_any_beq] at hpred
      simp only [List.any_eq_true, beq_iff_eq] at hpred
      obtain ⟨q, hq, rfl⟩ := hpred
      exact hq
    split
    · exact ⟨obj, rfl⟩
    · exact ⟨_, rfl⟩

theorem foldlM_removeSteps_ok : ∀ (l : List Elem) (acc : Elem),
    ∃ r, l.foldlM (fun acc p => if matchedProp p then removeStep acc p else pure acc) acc
      = .ok r
  | [], acc => ⟨acc, rfl⟩
  | p :: ps, acc => by
    rw [List.foldlM_cons]
    by_cases hm : matchedProp p = true
    · rw [hm]
      obtain ⟨r1, hr1⟩ := removeStep_ok acc p
      simp only [if_true, hr1]
      exact foldlM_removeSteps_ok ps r1
    · simp only [Bool.not_eq_true] at hm
      simp only [hm, Bool.false_eq_true, if_false]
      exact foldlM_removeSteps_ok ps acc

/-- C7: redaction and title promotion are total over arbitrary records: the
instrumented loop never reaches an error for any record — in particular,
when a matched field's parent cannot be resolved within the record the
removal attempt is a no-op rather than an error — and instrumented promotion
never errors either. -/
theorem redact_promote_total :
    (∀ obj : Elem, ∃ r, remove_sensitive_runE obj = .ok r) ∧
    (∀ obj : Elem, ∃ r, promote_titleE obj = .ok r) ∧
    (∀ obj p : Elem, findParentIn obj p = none → removeStep obj p = .ok obj) := by
  refine ⟨?_, ?_, ?_⟩
  · intro obj
    rw [remove_sensitive_runE]
    obtain ⟨r, hr⟩ := foldlM_removeSteps_ok (snapshotProps obj) obj
    rw [hr]
    exact ⟨filterAttrs r, rfl⟩
  · intro obj
    match obj with
    | .mk t a x cs tl =>
      rw [promote_titleE]
      split
      · exact ⟨_, rfl⟩
      · rename_i prop hf
        split
        · exact ⟨_, rfl⟩
        · rw [if_pos (by
            exact List.mem_cons_of_mem _ (List.mem_of_find?_eq_some hf))]
          exact ⟨_, rfl⟩
  · intro obj p hnone
    rw [removeStep, hnone]

/-- A record and a node foreign to it, instantiating the no-parent no-op. -/
def c7Obj : Elem :=
  .mk "object" [("password_hint", "x"), ("class", "Page")] none
    (.cons (.mk "property" [("name", "password")] (some "s") .nil none) .nil) none

def c7Stray : Elem := .mk "property" [("name", "gone")] (some "g") .nil none

theorem redact_promote_total_witness :
    remove_sensitive_runE c7Obj =
      .ok (.mk "object" [("class", "Page")] none .nil none) ∧
    promote_titleE c7Obj = .ok c7Obj ∧
    removeStep c7Obj c7Stray = .ok c7Obj := by
  refine ⟨?_, ?_, redact_promote_total.2.2 c7Obj c7Stray (by decide)⟩
  · obtain ⟨r, hr⟩ := redact_promote_total.1 c7Obj
    rw [hr]
    have : r = .mk "object" [("class", "Page")] none .nil none := by
      have h2 : remove_sensitive_runE c7Obj =
          .ok (.mk "object" [("class", "Page")] none .nil none) := by decide
      rw [hr] at h2
      exact (Except.ok.injEq _ _).mp h2
    rw [this]
  · obtain ⟨r, hr⟩ := redact_promote_total.2.1 c7Obj
    rw [hr]
    have h2 : promote_titleE c7Obj = .ok c7Obj := by decide
    rw [hr] at h2
    rw [(Except.ok.injEq _ _).mp h2]

/-! ### `main`'s parse-failure path (source lines 203-207)

```python
    try:
        tree = ET.parse(inp)
    except Exception as e:
        print(f"[ERROR] Failed parsing {{inp}}: {{e}}", file=sys.stderr)
        sys.exit(1)
```

The parse happens before anything is written, and `sys.exit(1)` aborts the
run, so a malformed input yields exit status 1 and no output files.  The
f-string, however, *escapes* its braces (`{{inp}}` is the literal text
`{inp}`), so the printed message is a constant that names neither the input
path nor the cause. -/

/-- The exact text printed on a parse failure — a constant function of the
path and the cause, because the doubled braces suppress interpolation. -/
def parseErrorMessage (_inp _cause : String) : String :=
  "[ERROR] Failed parsing \x7binp\x7d: \x7be\x7d"

structure RunOutcome where
  exitCode : Nat
  errOutput : List String
  filesWritten : List String
deriving DecidableEq

/-- The run outcome when `ET.parse` raises: message to stderr, exit 1,
nothing written. -/
def mainOnParseFailure (inp cause : String) : RunOutcome :=
  { exitCode := 1, errOutput := [parseErrorMessage inp cause], filesWritten := [] }

/-- C8, evaluated at a failing input (path `bad.xml`, cause
`syntax error: line 1, column 3`): the process exits non-zero and writes no
files — those parts of the claim hold — but the reported message is the
constant `[ERROR] Failed parsing {inp}: {e}`, which contains neither the
input path nor the cause: the f-string's doubled braces defeat the intended
interpolation, contradicting the claim (and the spec's stated intent). -/
theorem main_parse_failure_eval :
    (mainOnParseFailure "bad.xml" "syntax error: line 1, column 3").exitCode = 1 ∧
    (mainOnParseFailure "bad.xml" "syntax error: line 1, column 3").filesWritten = [] ∧
    (mainOnParseFailure "bad.xml" "syntax error: line 1, column 3").errOutput =
      ["[ERROR] Failed parsing \x7binp\x7d: \x7be\x7d"] ∧
    containsSub "bad.xml".toList
      "[ERROR] Failed parsing \x7binp\x7d: \x7be\x7d".toList = false ∧
    containsSub "syntax error".toList
      "[ERROR] Failed parsing \x7binp\x7d: \x7be\x7d".toList = false ∧
    (∀ inp cause : String,
      parseErrorMessage inp cause = "[ERROR] Failed parsing \x7binp\x7d: \x7be\x7d") := by
  exact ⟨by decide, by decide, by decide, by decide, by decide, fun _ _ => rfl⟩

/-! ### ElementTree serialization

`ET.tostring(e, encoding='unicode')` (method `xml`, the default) writes
`<tag k="v" ...>` with attributes in insertion order, then — when the text
is truthy or children exist — the escaped text, the children and a closing
tag, otherwise the short form `" />"`; the element's own tail follows.
`method='html'` writes `<tag ...>` (never self-closing), leaves `script` and
`style` text unescaped, omits the closing tag for the HTML void elements,
and serializes children even for those. -/

/-- `xml.etree.ElementTree._escape_cdata`: `& < >`. -/
def escCdata (l : List Char) : List Char :=
  l.flatMap (fun c =>
    if c = '&' then "&amp;".toList
    else if c = '<' then "&lt;".toList
    else if c = '>' then "&gt;".toList
    else [c])

/-- `_escape_attrib`: `& < > "` and literal tab/newline/carriage-return. -/
def escAttrib (l : List Char) : List Char :=
  l.flatMap (fun c =>
    if c = '&' then "&amp;".toList
    else if c = '<' then "&lt;".toList
    else if c = '>' then "&gt;".toList
    else if c.toNat = 34 then "&quot;".toList
    else if c = '\x0d' then "&#13;".toList
    else if c = '\n' then "&#10;".toList
    else if c = '\t' then "&#09;".toList
    else [c])

/-- `_escape_attrib_html`: only `& > "`. -/
def escAttribHtml (l : List Char) : List Char :=
  l.flatMap (fun c =>
    if c = '&' then "&amp;".toList
    else if c = '>' then "&gt;".toList
    else if c.toNat = 34 then "&quot;".toList
    else [c])

def attribsXml (a : List (String × String)) : List Char :=
  a.flatMap (fun kv =>
    ' ' :: kv.1.toList ++ "=\"".toList ++ escAttrib kv.2.toList ++ "\"".toList)

def attribsHtml (a : List (String × String)) : List Char :=
  a.flatMap (fun kv =>
    ' ' :: kv.1.toList ++ "=\"".toList ++ escAttribHtml kv.2.toList ++ "\"".toList)

def optText (x : Option String) : List Char :=
  match x with
  | some s => s.toList
  | none => []

mutual
def serXmlE : Elem → List Char
  | .mk t a x cs tl =>
    '<' :: t.toList ++ attribsXml a ++
      (if (optText x).isEmpty && cs.length == 0 then " />".toList
       else '>' :: escCdata (optText x) ++ serXmlL cs ++ "</".toList ++ t.toList ++ [ '>' ]) ++
      escCdata (optText tl)
def serXmlL : ElemList → List Char
  | .nil => []
  | .cons c cs => serXmlE c ++ serXmlL cs
end

/-- The HTML serializer's void elements (`HTML_EMPTY`). -/
def htmlEmpty : List String :=
  ["area", "base", "basefont", "br", "col", "embed", "frame", "hr", "img",
   "input", "isindex", "link", "meta", "param", "source", "track", "wbr"]

mutual
def serHtmlE : Elem → List Char
  | .mk t a x cs tl =>
    '<' :: t.toList ++ attribsHtml a ++ [ '>' ] ++
      (if (optText x).isEmpty then []
       else if pyLowerS t == "script" || pyLowerS t == "style" then optText x
       else escCdata (optText x)) ++
      serHtmlL cs ++
      (if htmlEmpty.contains (pyLowerS t) then []
       else "</".toList ++ t.toList ++ [ '>' ]) ++
      escCdata (optText tl)
def serHtmlL : ElemList → List Char
  | .nil => []
  | .cons c cs => serHtmlE c ++ serHtmlL cs
end

/-! ### `ET.indent(tree, space='  ')`

For every element with children: its text, if blank, becomes a newline plus
the child indentation; each child's blank tail becomes the child
indentation, except that the last child's (still-)blank tail becomes the
parent indentation; recursion into children that themselves have children. -/

/-- `"\n" + "  " * n`. -/
def indentOf (n : Nat) : String := .mk ('\n' :: List.replicate (n * 2) ' ')

/-- `not s or not s.strip()` for an optional text. -/
def blankOpt : Option String → Bool
  | none => true
  | some s => (pyStrip s.toList).isEmpty

def setBlankTail (s : String) : Elem → Elem
  | .mk t a x cs tl => .mk t a x cs (if blankOpt tl then some s else tl)

/-- The after-loop fixup of the last child's tail (its tail is non-`None`
there: the loop just set it if it was blank). -/
def fixLastTail (s : String) : Elem → Elem
  | .mk t a x cs tl =>
    .mk t a x cs (if (pyStrip (tl.getD "").toList).isEmpty then some s else tl)

mutual
def indentE (lvl : Nat) : Elem → Elem
  | .mk t a x cs tl =>
    match cs with
    | .nil => .mk t a x cs tl
    | .cons _ _ =>
      .mk t a (if blankOpt x then some (indentOf (lvl + 1)) else x) (indentL lvl cs) tl
def indentL (lvl : Nat) : ElemList → ElemList
  | .nil => .nil
  | .cons c .nil =>
    .cons (fixLastTail (indentOf lvl) (setBlankTail (indentOf (lvl + 1)) (indentE (lvl + 1) c)))
      .nil
  | .cons c cs =>
    .cons (setBlankTail (indentOf (lvl + 1)) (indentE (lvl + 1) c)) (indentL lvl cs)
end

/-- `ET.indent(tree, space='  ')` from the root (level 0). -/
def indentTree (root : Elem) : Elem := indentE 0 root

/-! ### `write_html_report` (source lines 114-196) and the pipeline of
`main` (source lines 199-225)

The report builder is a pure function of the sorted page list and the
body-content index; its one latent raise (`html.escape(bc_id)` with a `None`
id that nonetheless hits an entry of the index) is surfaced in `Except`.

Modelling notes, matching `main`'s data flow in value semantics:
* Python mutates pages in place inside the tree; here each collected page
  value is transformed and the reassembled root is built from the kept
  (non-record) children plus the transformed, sorted pages — the flow of
  `main` for documents whose records are not nested inside other elements
  (nested records are the C3 defect, orthogonal to determinism).
* `body_map` holds references collected before the transforms, so at report
  time its entries show the final tree state; it is therefore re-collected
  from the indented tree.
* `write_html_report` runs after `ET.indent` has rewritten whitespace
  inside the tree, so the pages passed to it are taken from the indented
  root (they are its trailing children). -/

def S (l : List Char) : String := .mk l

def escS (s : String) : String := S (htmlEscape s.toList)

def linkifyS (s : String) : String := S (linkify s.toList)

def serXmlS (e : Elem) : String := S (serXmlE e)

/-- `o.findtext(path)` with no default: `None` when no child matches. -/
def findtextOpt (e : Elem) (p : Elem → Bool) : Option String :=
  (findChild e p).map (fun c => (c.text).getD "")

def isLowerTitleProp (c : Elem) : Bool :=
  c.tag == "property" && c.get "name" == some "lowerTitle"

def isBodyColl (c : Elem) : Bool :=
  c.tag == "collection" && c.get "name" == some "bodyContents"

def isBodyProp (c : Elem) : Bool :=
  c.tag == "property" && c.get "name" == some "body"

def isBodyContent (e : Elem) : Bool :=
  e.tag == "object" && e.get "class" == some "BodyContent"

def reportHeader (n : Nat) : List String :=
  ["<!DOCTYPE html>",
   "<html><head><meta charset=\"utf-8\"><title>Reporte de Páginas</title>",
   "<style>",
   "body\x7bfont:14px sans-serif;margin:1em;\x7d",
   "section\x7bborder:1px solid #ccc;padding:1em;margin:1em 0;\x7d",
   ".label\x7bfont-weight:bold;margin-top:0.5em;display:block;\x7d",
   ".body-content-block\x7bborder:1px dashed #999;padding:0.5em;margin:0.5em 0;\x7d",
   ".body-content-block h4\x7bmargin:0.2em 0;\x7d",
   "pre\x7bbackground:#f8f8f8;padding:0.5em;overflow:auto;\x7d",
   "details\x7bmargin-top:0.5em;\x7d",
   "summary\x7bcursor:pointer;font-weight:bold;\x7d",
   "</style></head><body>",
   "<h1>Páginas (" ++ toString n ++ ")</h1>"]

/-- Title resolution: promoted title text if truthy (stripped), else the
stripped `lowerTitle` property text, else the literal placeholder. -/
def displayTitle (o : Elem) : String :=
  let t1 :=
    match findtextOpt o isTitleTag with
    | some s => if s == "" then pyStripS (findtext o isLowerTitleProp "") else pyStripS s
    | none => pyStripS (findtext o isLowerTitleProp "")
  if t1 == "" then "(sin título)" else t1

/-- `serialize_children` (source lines 100-103). -/
def serialize_children (elm : Elem) : String :=
  if elm.children.length != 0 then S (serHtmlL elm.children)
  else escS ((elm.text).getD "")

/-- The body-content block: the first descendant `bodyContents` collection,
its `element` entries resolved through the id index (last binding wins, as
in a dict comprehension); `html.escape(bc_id)` raises on a `None` id. -/
def bodyContentLines (body_map : List (Option String × Elem)) (o : Elem) :
    Except String (List String) :=
  match (descE o).find? isBodyColl with
  | none => .ok []
  | some bc => do
    let entries ← (bc.children.toList.filter (fun e => e.tag == "element")).foldlM
      (fun (acc : List String) elm => do
        let bcId := findtextOpt elm isIdId
        match body_map.reverse.lookup bcId with
        | none => pure acc
        | some bo =>
          match findChild bo isBodyProp with
          | none => pure acc
          | some bp => do
            let idTxt ←
              (match bcId with
               | none => Except.error "AttributeError"
               | some s => pure (escS s))
            let content0 := S (serHtmlL bp.children)
            let content := if content0 == "" then escS ((bp.text).getD "") else content0
            pure (acc ++
              ["<div class=\"body-content-block\">",
               "<h4>Entry ID: " ++ idTxt ++ "</h4>",
               "<details><summary>Raw body</summary>",
               "<pre>" ++ escS (serXmlS bp) ++ "</pre></details>",
               "<details open><summary>Rendered body</summary>",
               "<div style=\"white-space:pre-wrap;margin-left:1em;\">" ++ content ++ "</div>",
               "</details>",
               "</div>"])) []
    pure ("<h3 class=\"label\">Body Content</h3>" :: entries)

def skipNames : List String := ["title", "creationdate", "lowertitle", "body"]

/-- The remaining direct properties, in encounter order, skipping the
already-rendered names and empty texts; values are linkified. -/
def propLines (o : Elem) : List String :=
  (o.children.toList.filter (fun e => e.tag == "property")).foldl
    (fun acc prop =>
      let nm := (prop.get "name").getD ""
      if skipNames.contains (pyLowerS nm) then acc
      else
        let txt := pyStripS (S (itertextE prop))
        if txt == "" then acc
        else acc ++
          ["<p><span class=\"label\">" ++ escS nm ++ ":</span> " ++ linkifyS txt ++ "</p>"]) []

/-- The non-`bodyContents` collections as labeled lists. -/
def collLines (o : Elem) : List String :=
  (o.children.toList.filter (fun e => e.tag == "collection")).foldl
    (fun acc coll =>
      let nm := (coll.get "name").getD ""
      if nm == "bodyContents" then acc
      else
        acc ++ ["<p><span class=\"label\">Colección: " ++ escS nm ++ "</span></p><ul>"] ++
          (coll.children.toList.filter (fun e => e.tag == "element")).map
            (fun el => "<li>" ++ serialize_children el ++ "</li>") ++
          ["</ul>"]) []

/-- One `<section>` of the report. -/
def sectionLines (body_map : List (Option String × Elem)) (o : Elem) :
    Except String (List String) := do
  let idPart :=
    match findtextOpt o isIdId with
    | some s =>
      if s == "" then []
      else ["<p><span class=\"label\">ID:</span> " ++ escS s ++ "</p>"]
    | none => []
  let cdPart :=
    match findtextOpt o isCreationDateProp with
    | some s =>
      if s == "" then []
      else ["<p><span class=\"label\">Fecha creación:</span> " ++ escS s ++ "</p>"]
    | none => []
  let bodyPart ← bodyContentLines body_map o
  pure (["<section>", "<h2>" ++ escS (displayTitle o) ++ "</h2>"] ++ idPart ++ cdPart ++
    bodyPart ++ propLines o ++ collLines o ++
    ["<details><summary>XML crudo de la sección</summary>",
     "<pre>" ++ escS (serXmlS o) ++ "</pre>",
     "</details></section>"])

def write_html_report (pages : List Elem) (body_map : List (Option String × Elem)) :
    Except String String := do
  let secs ← pages.foldlM (fun acc o => do pure (acc ++ (← sectionLines body_map o))) []
  pure (String.intercalate "\n" (reportHeader pages.length ++ secs ++ ["</body></html>"]))

/-! ### The whole pipeline -/

inductive SortMode where
  | id
  | title
  | creationDate

/-- Python string `<`: lexicographic on code points. -/
def ltStrChars : List Char → List Char → Bool
  | [], [] => false
  | [], _ :: _ => true
  | _ :: _, [] => false
  | a :: xs, b :: ys =>
    if a.toNat < b.toNat then true
    else if a.toNat = b.toNat then ltStrChars xs ys
    else false

def ltStr (a b : String) : Bool := ltStrChars a.toList b.toList

def sortByMode : SortMode → List Elem → Except String (List Elem)
  | .id, pages => pySortByKeyE intLt get_sort_key_id pages
  | .title, pages =>
    .ok (sortK (fun a b => ltStr (get_sort_key_title a) (get_sort_key_title b)) pages)
  | .creationDate, pages => .ok (pySortByDate pages)

/-- `main` after a successful parse: normalize namespaces, redact and
promote each record, sort by the selected key, reassemble, indent, and
produce the transformed tree, the structured output text and the report
text. -/
def pipeline (mode : SortMode) (parsed : Elem) : Except String (Elem × String × String) := do
  let root := strip_nsE parsed
  let pagesT := (findallPages root).map (fun p => promote_title (remove_sensitive p))
  let sorted ← sortByMode mode pagesT
  let newRoot := write_sorted_xml_root root sorted
  let indented := indentTree newRoot
  let xmlOut := "<?xml version='1.0' encoding='utf-8'?>\n" ++ S (serXmlE indented)
  let pagesR := indented.children.toList.drop (keptChildren root).length
  let bodyMap := ((descE indented).filter isBodyContent).map
    (fun bo => (findtextOpt bo isIdId, bo))
  let htmlOut ← write_html_report pagesR bodyMap
  pure (indented, xmlOut, htmlOut)

/-- C10: the pipeline is deterministic — on equal parsed inputs with the
same sort-key mode, the transformed tree, the serialized structured output
and the generated report are identical (the embedding exhibits `main`'s
processing as a pure function of the parsed tree and the mode; no stage
draws on any other input). -/
theorem pipeline_deterministic : ∀ (mode : SortMode) (t1 t2 : Elem),
    t1 = t2 → pipeline mode t1 = pipeline mode t2 := by
  intro mode t1 t2 h
  rw [h]

def c10Doc : Elem :=
  .mk "root" [] none
    (.cons (mkIdRec "2")
      (.cons (.mk "meta" [] (some "x") .nil none)
        (.cons (mkIdRec "1") .nil))) none

theorem pipeline_deterministic_witness :
    pipeline .id c10Doc = pipeline .id c10Doc ∧
    pipeline .title c10Doc = pipeline .title c10Doc ∧
    pipeline .creationDate c10Doc = pipeline .creationDate c10Doc :=
  ⟨pipeline_deterministic .id c10Doc c10Doc rfl,
   pipeline_deterministic .title c10Doc c10Doc rfl,
   pipeline_deterministic .creationDate c10Doc c10Doc rfl⟩
